import Mathlib

/-!
# Verification of the training-loop notebook `04_Optimizer_Loss.ipynb`

A shallow embedding of the notebook's linear-regression training code.
Scalars are rationals (`ℚ`): the notebook's numeric work is elementwise
arithmetic, squaring, summation and division by a length, all of which are
exact over `ℚ`.

The notebook's own code (the loop bodies, the `ManualLinearRegression`
class, `make_train_step`) is translated directly.  The framework primitives
it calls (`nn.MSELoss`, `loss.backward()`, `optimizer.step()`,
`optimizer.zero_grad()`, `model.train()`) are not part of the repository;
they are modelled from their documented semantics, which the repository's
specification states in its glossary (optimizer step = one application of
the update rule to the parameter set using accumulated gradients; loss = a
scalar measuring prediction error, differentiated to obtain gradients;
forward pass = a prediction from inputs given current parameters).
-/

/-- The mean of a list of rationals: `sum / length`, matching `.mean()`
on a tensor.  For the empty list this is `0 / 0 = 0` in `ℚ`. -/
def listMean (l : List ℚ) : ℚ := l.sum / (l.length : ℚ)

/-- The manual loss computation of the notebook
(`error = y_train_tensor - yhat; loss = (error ** 2).mean()`):
elementwise error, elementwise square, mean. -/
def manual_loss (y yhat : List ℚ) : ℚ :=
  listMean ((List.zipWith (fun yi yh => yi - yh) y yhat).map (fun e => e ^ 2))

/-- Modelled from the spec: the loss function created by
`nn.MSELoss(reduction='mean')` — "a scalar measuring prediction error" —
returns the mean of the squared elementwise differences of its two
arguments, summing the squares and dividing by the number of elements of
the first argument. -/
def MSELoss_mean (input target : List ℚ) : ℚ :=
  (List.zipWith (fun i t => (i - t) ^ 2) input target).sum / (input.length : ℚ)

/-- The `ManualLinearRegression` module of the notebook: an `nn.Module`
holding the two learnable parameters `a` and `b`. -/
structure ManualLinearRegression where
  a : ℚ
  b : ℚ
deriving DecidableEq, Repr

/-- `ManualLinearRegression.forward`: `return self.a + self.b * x`. -/
def ManualLinearRegression.forward (m : ManualLinearRegression) (x : ℚ) : ℚ :=
  m.a + m.b * x

/-- Modelled from the spec: calling the whole model, as in `model(x)`,
performs a forward pass — the module's `__call__` dispatches to
`forward`. -/
def ManualLinearRegression.call (m : ManualLinearRegression) (x : ℚ) : ℚ :=
  m.forward x

/-- One optimizer-managed parameter: its current value and its accumulated
gradient (`p` and `p.grad`). -/
structure Param where
  value : ℚ
  grad : ℚ
deriving DecidableEq, Repr

/-- Modelled from the spec: one call to `optimizer.step()` on
`optim.SGD(params, lr=lr)` is "one application of an update rule to a set
of parameters using their accumulated gradients": every parameter the
optimizer was constructed with receives exactly one plain
gradient-descent update `value := value - lr * grad`. -/
def SGD_step (lr : ℚ) (params : List Param) : List Param :=
  params.map (fun p => ⟨p.value - lr * p.grad, p.grad⟩)

/-- The manual parameter update the optimizer replaced, from the notebook's
commented-out code: `a -= lr * a.grad` and `b -= lr * b.grad`. -/
def manual_update (lr a b aGrad bGrad : ℚ) : ℚ × ℚ :=
  (a - lr * aGrad, b - lr * bGrad)

/-- The whole mutable state of a training run: the two parameters `a` and
`b` (for the model variants, the parameters registered by the module),
their accumulated gradients, the module's training-mode flag, and the
training data `x_train_tensor` / `y_train_tensor`. -/
structure World where
  a : ℚ
  b : ℚ
  gradA : ℚ
  gradB : ℚ
  training : Bool
  xs : List ℚ
  ys : List ℚ
deriving DecidableEq, Repr

/-- Modelled from the spec: `model.train()` only sets the model to
training mode; it performs no training step. -/
def model_train (w : World) : World := { w with training := true }

/-- The predictions of the current parameters on the training inputs:
`yhat = a + b * x_train_tensor` (equally, `model(x_train_tensor)`). -/
def predictions (w : World) : List ℚ := w.xs.map (fun x => w.a + w.b * x)

/-- Partial derivative with respect to `a` of the mean-squared-error loss
`listMean ((y - (a + b * x))^2)` over the data `(xs, ys)`. -/
def gradA_mse (xs ys : List ℚ) (a b : ℚ) : ℚ :=
  (2 / (xs.length : ℚ)) *
    (List.zipWith (fun x y => (a + b * x) - y) xs ys).sum

/-- Partial derivative with respect to `b` of the mean-squared-error loss
`listMean ((y - (a + b * x))^2)` over the data `(xs, ys)`. -/
def gradB_mse (xs ys : List ℚ) (a b : ℚ) : ℚ :=
  (2 / (xs.length : ℚ)) *
    (List.zipWith (fun x y => ((a + b * x) - y) * x) xs ys).sum

/-- Modelled from the spec: `loss.backward()` differentiates the scalar
loss to obtain gradients, accumulating into each parameter's `.grad` the
partial derivative of the loss with respect to that parameter, evaluated
at the current parameter values and training data.  Nothing else in the
state changes. -/
def loss_backward (w : World) : World :=
  { w with
    gradA := w.gradA + gradA_mse w.xs w.ys w.a w.b
    gradB := w.gradB + gradB_mse w.xs w.ys w.a w.b }

/-- Modelled from the spec: `optimizer.step()` applies the SGD update rule
once to the parameter set `[a, b]` the optimizer was constructed with,
using the accumulated gradients.  Gradients, mode and data are
untouched. -/
def optimizer_step (lr : ℚ) (w : World) : World :=
  { w with a := w.a - lr * w.gradA, b := w.b - lr * w.gradB }

/-- Modelled from the spec: `optimizer.zero_grad()` zeroes the accumulated
gradient of every parameter the optimizer manages and changes nothing
else. -/
def optimizer_zero_grad (w : World) : World :=
  { w with gradA := 0, gradB := 0 }

/-- The closure returned by `make_train_step(model, loss_fn, optimizer)`.
Translated line by line: `model.train()`; `yhat = model(x)`;
`loss = loss_fn(y, yhat)`; `loss.backward()`; `optimizer.step()`;
`optimizer.zero_grad()`; `return loss.item()`.  The scalar loss and the
state after the call are returned. -/
def train_step (lr : ℚ) (w : World) : ℚ × World :=
  let w1 := model_train w
  let yhat := predictions w1
  let loss := MSELoss_mean w1.ys yhat
  let w2 := loss_backward w1
  let w3 := optimizer_step lr w2
  let w4 := optimizer_zero_grad w3
  (loss, w4)

/-- One iteration of the manual-loss training loop (notebook cell 8):
`yhat = a + b * x_train_tensor; error = y_train_tensor - yhat;
loss = (error ** 2).mean(); loss.backward(); optimizer.step();
optimizer.zero_grad()`. -/
def epoch_manual (lr : ℚ) (w : World) : ℚ × World :=
  let yhat := predictions w
  let loss := manual_loss w.ys yhat
  (loss, optimizer_zero_grad (optimizer_step lr (loss_backward w)))

/-- One iteration of the `nn.MSELoss` training loop (notebook cell 9):
as `epoch_manual` but with `loss = loss_fn(y_train_tensor, yhat)`. -/
def epoch_mse (lr : ℚ) (w : World) : ℚ × World :=
  let yhat := predictions w
  let loss := MSELoss_mean w.ys yhat
  (loss, optimizer_zero_grad (optimizer_step lr (loss_backward w)))

/-- One iteration of the inline model training loop (notebook cell 11):
`model.train(); yhat = model(x_train_tensor);
loss = loss_fn(y_train_tensor, yhat); loss.backward(); optimizer.step();
optimizer.zero_grad()`. -/
def epoch_inline (lr : ℚ) (w : World) : ℚ × World :=
  let w0 := model_train w
  let yhat := predictions w0
  let loss := MSELoss_mean w0.ys yhat
  (loss, optimizer_zero_grad (optimizer_step lr (loss_backward w0)))

/-- The manual-loss loop run for `n` epochs, collecting the loss computed
at each epoch together with the final state. -/
def loop_manual (lr : ℚ) : Nat → World → List ℚ × World
  | 0, w => ([], w)
  | n + 1, w =>
    let r := epoch_manual lr w
    let rest := loop_manual lr n r.2
    (r.1 :: rest.1, rest.2)

/-- The `nn.MSELoss` loop run for `n` epochs, collecting the loss computed
at each epoch together with the final state. -/
def loop_mse (lr : ℚ) : Nat → World → List ℚ × World
  | 0, w => ([], w)
  | n + 1, w =>
    let r := epoch_mse lr w
    let rest := loop_mse lr n r.2
    (r.1 :: rest.1, rest.2)

/-- The inline model loop run for `n` epochs. -/
def loop_inline (lr : ℚ) : Nat → World → List ℚ × World
  | 0, w => ([], w)
  | n + 1, w =>
    let r := epoch_inline lr w
    let rest := loop_inline lr n r.2
    (r.1 :: rest.1, rest.2)

/-- The tiny final training loop of the notebook:
`loss = train_step(x_train_tensor, y_train_tensor); losses.append(loss)`
for each of `n` epochs; the `losses` list and the final state are
returned. -/
def loop_train_step (lr : ℚ) : Nat → World → List ℚ × World
  | 0, w => ([], w)
  | n + 1, w =>
    let r := train_step lr w
    let rest := loop_train_step lr n r.2
    (r.1 :: rest.1, rest.2)

/-! ## Helper lemmas -/

/-- The observable numeric state of a run: every field of the `World`
except the training-mode flag (which the manual loops never read or
write). -/
def World.obs (w : World) : ℚ × ℚ × ℚ × ℚ × List ℚ × List ℚ :=
  (w.a, w.b, w.gradA, w.gradB, w.xs, w.ys)

lemma epoch_manual_obs (lr : ℚ) (w1 w2 : World) (h : w1.obs = w2.obs) :
    (epoch_manual lr w1).1 = (epoch_manual lr w2).1 ∧
      ((epoch_manual lr w1).2).obs = ((epoch_manual lr w2).2).obs := by
  obtain ⟨a1, b1, ga1, gb1, t1, xs1, ys1⟩ := w1
  obtain ⟨a2, b2, ga2, gb2, t2, xs2, ys2⟩ := w2
  simp only [World.obs, Prod.mk.injEq] at h
  obtain ⟨ha, hb, hga, hgb, hxs, hys⟩ := h
  subst ha hb hga hgb hxs hys
  exact ⟨rfl, rfl⟩

lemma epoch_mse_obs (lr : ℚ) (w1 w2 : World) (h : w1.obs = w2.obs) :
    (epoch_mse lr w1).1 = (epoch_mse lr w2).1 ∧
      ((epoch_mse lr w1).2).obs = ((epoch_mse lr w2).2).obs := by
  obtain ⟨a1, b1, ga1, gb1, t1, xs1, ys1⟩ := w1
  obtain ⟨a2, b2, ga2, gb2, t2, xs2, ys2⟩ := w2
  simp only [World.obs, Prod.mk.injEq] at h
  obtain ⟨ha, hb, hga, hgb, hxs, hys⟩ := h
  subst ha hb hga hgb hxs hys
  exact ⟨rfl, rfl⟩

lemma loop_manual_obs (lr : ℚ) (n : Nat) (w1 w2 : World) (h : w1.obs = w2.obs) :
    (loop_manual lr n w1).1 = (loop_manual lr n w2).1 ∧
      ((loop_manual lr n w1).2).obs = ((loop_manual lr n w2).2).obs := by
  induction n generalizing w1 w2 with
  | zero => exact ⟨rfl, h⟩
  | succ n ih =>
    obtain ⟨hloss, hobs⟩ := epoch_manual_obs lr w1 w2 h
    obtain ⟨hl, ho⟩ := ih (epoch_manual lr w1).2 (epoch_manual lr w2).2 hobs
    exact ⟨by simp [loop_manual, hloss, hl], by simpa [loop_manual] using ho⟩

lemma loop_mse_obs (lr : ℚ) (n : Nat) (w1 w2 : World) (h : w1.obs = w2.obs) :
    (loop_mse lr n w1).1 = (loop_mse lr n w2).1 ∧
      ((loop_mse lr n w1).2).obs = ((loop_mse lr n w2).2).obs := by
  induction n generalizing w1 w2 with
  | zero => exact ⟨rfl, h⟩
  | succ n ih =>
    obtain ⟨hloss, hobs⟩ := epoch_mse_obs lr w1 w2 h
    obtain ⟨hl, ho⟩ := ih (epoch_mse lr w1).2 (epoch_mse lr w2).2 hobs
    exact ⟨by simp [loop_mse, hloss, hl], by simpa [loop_mse] using ho⟩

lemma loop_train_step_length (lr : ℚ) (n : Nat) (w : World) :
    (loop_train_step lr n w).1.length = n := by
  induction n generalizing w with
  | zero => rfl
  | succ n ih => simp [loop_train_step, ih]

/-!
### Justification of the modelled backward pass

`loss_backward` was modelled from the spec as accumulating the partial
derivatives of the mean-squared-error loss.  The lemmas below check that
the formulas `gradA_mse` and `gradB_mse` really are those derivatives:
over `ℝ`, the function `t ↦ Σ (y - (t + b * x))² / n` on the (cast)
training data has derivative `gradA_mse` at `t = a`, and
`t ↦ Σ (y - (a + t * x))² / n` has derivative `gradB_mse` at `t = b`.
-/

lemma hasDerivAt_sum_sq_a (xs ys : List ℚ) (b : ℚ) (a : ℝ) :
    HasDerivAt
      (fun t : ℝ =>
        (List.zipWith (fun x y : ℚ => ((y : ℝ) - (t + (b : ℝ) * (x : ℝ))) ^ 2) xs ys).sum)
      ((List.zipWith (fun x y : ℚ => 2 * ((a + (b : ℝ) * (x : ℝ)) - (y : ℝ))) xs ys).sum) a := by
  induction xs generalizing ys with
  | nil => simpa using hasDerivAt_const a (0 : ℝ)
  | cons x xs ih =>
    cases ys with
    | nil => simpa using hasDerivAt_const a (0 : ℝ)
    | cons y ys =>
      simp only [List.zipWith_cons_cons, List.sum_cons]
      have hinner : HasDerivAt (fun t : ℝ => (y : ℝ) - (t + (b : ℝ) * (x : ℝ))) (-1) a := by
        simpa using ((hasDerivAt_id a).add_const ((b : ℝ) * (x : ℝ))).const_sub (y : ℝ)
      have h1 : HasDerivAt (fun t : ℝ => ((y : ℝ) - (t + (b : ℝ) * (x : ℝ))) ^ 2)
          (2 * ((a + (b : ℝ) * (x : ℝ)) - (y : ℝ))) a := by
        convert hinner.pow 2 using 1
        ring
      exact h1.add (ih ys)

lemma cast_zip_sum_a (xs ys : List ℚ) (a b : ℚ) :
    ((List.zipWith (fun x y => (a + b * x) - y) xs ys).map Rat.cast).sum
      = (List.zipWith (fun x y : ℚ => (((a : ℝ) + (b : ℝ) * (x : ℝ)) - (y : ℝ))) xs ys).sum := by
  rw [List.map_zipWith]
  rw [show (fun x y : ℚ => ((a + b * x - y : ℚ) : ℝ))
      = (fun x y : ℚ => ((a : ℝ) + (b : ℝ) * (x : ℝ) - (y : ℝ))) from by
    funext x y
    push_cast
    ring]

lemma sum_two_mul_a (xs ys : List ℚ) (a b : ℚ) :
    (List.zipWith (fun x y : ℚ => 2 * (((a : ℝ) + (b : ℝ) * (x : ℝ)) - (y : ℝ))) xs ys).sum
      = 2 * (List.zipWith (fun x y : ℚ => (((a : ℝ) + (b : ℝ) * (x : ℝ)) - (y : ℝ))) xs ys).sum := by
  induction xs generalizing ys with
  | nil => simp
  | cons x xs ih =>
    cases ys with
    | nil => simp
    | cons y ys =>
      simp only [List.zipWith_cons_cons, List.sum_cons, ih ys]
      ring

/-- The modelled gradient `gradA_mse` is the calculus derivative, with
respect to the parameter `a`, of the real-valued mean-squared-error loss
on the same training data. -/
lemma gradA_mse_is_derivative (xs ys : List ℚ) (a b : ℚ) :
    HasDerivAt
      (fun t : ℝ =>
        (List.zipWith (fun x y : ℚ => ((y : ℝ) - (t + (b : ℝ) * (x : ℝ))) ^ 2) xs ys).sum
          / (xs.length : ℝ))
      ((gradA_mse xs ys a b : ℝ)) ((a : ℝ)) := by
  have h := (hasDerivAt_sum_sq_a xs ys b (a : ℝ)).div_const (xs.length : ℝ)
  convert h using 1
  rw [sum_two_mul_a]
  unfold gradA_mse
  push_cast
  rw [cast_zip_sum_a]
  ring

lemma hasDerivAt_sum_sq_b (xs ys : List ℚ) (a : ℚ) (b : ℝ) :
    HasDerivAt
      (fun t : ℝ =>
        (List.zipWith (fun x y : ℚ => ((y : ℝ) - ((a : ℝ) + t * (x : ℝ))) ^ 2) xs ys).sum)
      ((List.zipWith (fun x y : ℚ => 2 * ((((a : ℝ) + b * (x : ℝ)) - (y : ℝ)) * (x : ℝ))) xs ys).sum) b := by
  induction xs generalizing ys with
  | nil => simpa using hasDerivAt_const b (0 : ℝ)
  | cons x xs ih =>
    cases ys with
    | nil => simpa using hasDerivAt_const b (0 : ℝ)
    | cons y ys =>
      simp only [List.zipWith_cons_cons, List.sum_cons]
      have hinner : HasDerivAt (fun t : ℝ => (y : ℝ) - ((a : ℝ) + t * (x : ℝ))) (-(x : ℝ)) b := by
        simpa using (((hasDerivAt_id b).mul_const ((x : ℝ))).const_add (a : ℝ)).const_sub (y : ℝ)
      have h1 : HasDerivAt (fun t : ℝ => ((y : ℝ) - ((a : ℝ) + t * (x : ℝ))) ^ 2)
          (2 * ((((a : ℝ) + b * (x : ℝ)) - (y : ℝ)) * (x : ℝ))) b := by
        convert hinner.pow 2 using 1
        ring
      exact h1.add (ih ys)

lemma cast_zip_sum_b (xs ys : List ℚ) (a b : ℚ) :
    ((List.zipWith (fun x y => ((a + b * x) - y) * x) xs ys).map Rat.cast).sum
      = (List.zipWith (fun x y : ℚ => ((((a : ℝ) + (b : ℝ) * (x : ℝ)) - (y : ℝ)) * (x : ℝ))) xs ys).sum := by
  rw [List.map_zipWith]
  rw [show (fun x y : ℚ => (((a + b * x - y) * x : ℚ) : ℝ))
      = (fun x y : ℚ => (((a : ℝ) + (b : ℝ) * (x : ℝ) - (y : ℝ)) * (x : ℝ))) from by
    funext x y
    push_cast
    ring]

lemma sum_two_mul_b (xs ys : List ℚ) (a b : ℚ) :
    (List.zipWith (fun x y : ℚ => 2 * ((((a : ℝ) + (b : ℝ) * (x : ℝ)) - (y : ℝ)) * (x : ℝ))) xs ys).sum
      = 2 * (List.zipWith (fun x y : ℚ => ((((a : ℝ) + (b : ℝ) * (x : ℝ)) - (y : ℝ)) * (x : ℝ))) xs ys).sum := by
  induction xs generalizing ys with
  | nil => simp
  | cons x xs ih =>
    cases ys with
    | nil => simp
    | cons y ys =>
      simp only [List.zipWith_cons_cons, List.sum_cons, ih ys]
      ring

/-- The modelled gradient `gradB_mse` is the calculus derivative, with
respect to the parameter `b`, of the real-valued mean-squared-error loss
on the same training data. -/
lemma gradB_mse_is_derivative (xs ys : List ℚ) (a b : ℚ) :
    HasDerivAt
      (fun t : ℝ =>
        (List.zipWith (fun x y : ℚ => ((y : ℝ) - ((a : ℝ) + t * (x : ℝ))) ^ 2) xs ys).sum
          / (xs.length : ℝ))
      ((gradB_mse xs ys a b : ℝ)) ((b : ℝ)) := by
  have h := (hasDerivAt_sum_sq_b xs ys a (b : ℝ)).div_const (xs.length : ℝ)
  convert h using 1
  rw [sum_two_mul_b]
  unfold gradB_mse
  push_cast
  rw [cast_zip_sum_b]
  ring

/-! ## Claim theorems -/

/-- C4: for every input `x`, calling a `ManualLinearRegression` model on
`x` performs the forward pass, returning the prediction `a + b * x`
computed from the model's current parameter values. -/
theorem manualLinearRegression_call_is_forward
    (m : ManualLinearRegression) (x : ℚ) :
    m.call x = m.a + m.b * x ∧ m.call x = m.forward x :=
  ⟨rfl, rfl⟩

/-- C5: one call to `optimizer.step()` is one application of the SGD
update rule to the parameter set the optimizer was constructed with: the
parameter set keeps its size, and the parameter at every position is
updated exactly once, to `value - lr * grad`, using its own accumulated
gradient (which the step leaves in place). -/
theorem sgd_step_updates_each_param_once (lr : ℚ) (ps : List Param) :
    (SGD_step lr ps).length = ps.length ∧
      ∀ i : Nat, (SGD_step lr ps)[i]? =
        (ps[i]?).map (fun p => ⟨p.value - lr * p.grad, p.grad⟩) := by
  refine ⟨by simp [SGD_step], fun i => ?_⟩
  simp [SGD_step, List.getElem?_map]

/-- C3: one `optimizer.step()` of `optim.SGD([a, b], lr=lr)` produces
exactly the parameter values of the manual updates it replaced,
`a -= lr * a.grad` and `b -= lr * b.grad`, both for the generic parameter
list and for the training state. -/
theorem optimizer_step_eq_manual_update (lr : ℚ) (w : World) :
    SGD_step lr [⟨w.a, w.gradA⟩, ⟨w.b, w.gradB⟩] =
        [⟨(manual_update lr w.a w.b w.gradA w.gradB).1, w.gradA⟩,
         ⟨(manual_update lr w.a w.b w.gradA w.gradB).2, w.gradB⟩] ∧
      (optimizer_step lr w).a = (manual_update lr w.a w.b w.gradA w.gradB).1 ∧
      (optimizer_step lr w).b = (manual_update lr w.a w.b w.gradA w.gradB).2 :=
  ⟨rfl, rfl, rfl⟩

/-- C1: `make_train_step(model, loss_fn, optimizer)` returns a callable
that performs exactly one forward/backward/update cycle in order — set
training mode, forward pass, loss, gradient computation, one optimizer
update, gradient zeroing — and returns the resulting scalar loss.  The
first conjunct is the cycle as the ordered composition of the five state
primitives, with the loss taken before the update; the rest are its
observable consequences: training mode is set, each parameter received
exactly one SGD update from its accumulated gradient, and the returned
scalar is the loss of the entry parameters. -/
theorem make_train_step_performs_one_cycle (lr : ℚ) (w : World) :
    train_step lr w =
        (MSELoss_mean w.ys (predictions (model_train w)),
          optimizer_zero_grad (optimizer_step lr (loss_backward (model_train w)))) ∧
      (train_step lr w).2.training = true ∧
      (train_step lr w).2.a =
        w.a - lr * (w.gradA + gradA_mse w.xs w.ys w.a w.b) ∧
      (train_step lr w).2.b =
        w.b - lr * (w.gradB + gradB_mse w.xs w.ys w.a w.b) ∧
      (train_step lr w).1 =
        MSELoss_mean w.ys (w.xs.map (fun x => w.a + w.b * x)) :=
  ⟨rfl, rfl, rfl, rfl, rfl⟩

/-- C7: the training step writes the parameters only through
`optimizer.step()` and the gradients only through `loss.backward()` and
`optimizer.zero_grad()`: every other primitive of the step preserves the
parameters, `optimizer.step()` preserves the gradients, every primitive
preserves the training data, and a whole `train_step` call leaves the
input tensors `x` and `y` unchanged. -/
theorem train_step_frame_conditions (lr : ℚ) (w : World) :
    (model_train w).a = w.a ∧ (model_train w).b = w.b ∧
      (model_train w).gradA = w.gradA ∧ (model_train w).gradB = w.gradB ∧
      (model_train w).xs = w.xs ∧ (model_train w).ys = w.ys ∧
      (loss_backward w).a = w.a ∧ (loss_backward w).b = w.b ∧
      (loss_backward w).xs = w.xs ∧ (loss_backward w).ys = w.ys ∧
      (optimizer_step lr w).gradA = w.gradA ∧
      (optimizer_step lr w).gradB = w.gradB ∧
      (optimizer_step lr w).xs = w.xs ∧ (optimizer_step lr w).ys = w.ys ∧
      (optimizer_zero_grad w).a = w.a ∧ (optimizer_zero_grad w).b = w.b ∧
      (optimizer_zero_grad w).xs = w.xs ∧ (optimizer_zero_grad w).ys = w.ys ∧
      (train_step lr w).2.xs = w.xs ∧ (train_step lr w).2.ys = w.ys :=
  ⟨rfl, rfl, rfl, rfl, rfl, rfl, rfl, rfl, rfl, rfl,
   rfl, rfl, rfl, rfl, rfl, rfl, rfl, rfl, rfl, rfl⟩

lemma mseloss_eq_manual (y yhat : List ℚ) (h : y.length = yhat.length) :
    MSELoss_mean y yhat = manual_loss y yhat := by
  unfold MSELoss_mean manual_loss listMean
  rw [List.map_zipWith]
  simp [List.length_zipWith, h]

lemma epoch_mse_eq_epoch_manual (lr : ℚ) (w : World)
    (hw : w.ys.length = w.xs.length) :
    epoch_mse lr w = epoch_manual lr w := by
  have hl : MSELoss_mean w.ys (predictions w) = manual_loss w.ys (predictions w) :=
    mseloss_eq_manual _ _ (by simp [predictions, hw])
  simp only [epoch_mse, epoch_manual]
  rw [hl]

lemma loop_mse_eq_loop_manual (lr : ℚ) (n : Nat) (w : World)
    (hw : w.ys.length = w.xs.length) :
    loop_mse lr n w = loop_manual lr n w := by
  induction n generalizing w with
  | zero => rfl
  | succ n ih =>
    have hw' : ((epoch_manual lr w).2).ys.length = ((epoch_manual lr w).2).xs.length := by
      simpa [epoch_manual, optimizer_zero_grad, optimizer_step, loss_backward] using hw
    simp only [loop_mse, loop_manual]
    rw [epoch_mse_eq_epoch_manual lr w hw, ih _ hw']

/-- C2: `nn.MSELoss(reduction='mean')` computes exactly the manual loss
`error = y_train_tensor - yhat; loss = (error ** 2).mean()` on every pair
of equal-length label and prediction vectors; consequently the training
loop using `loss_fn` and the loop using the manual loss compute the same
loss at every epoch and, from the same initial state, the same final
parameters. -/
theorem mseloss_refines_manual_loss (y yhat : List ℚ) (lr : ℚ) (n : Nat)
    (w : World) (h : y.length = yhat.length)
    (hw : w.ys.length = w.xs.length) :
    MSELoss_mean y yhat = manual_loss y yhat ∧
      loop_mse lr n w = loop_manual lr n w :=
  ⟨mseloss_eq_manual y yhat h, loop_mse_eq_loop_manual lr n w hw⟩

/-- Witness for C2 at concrete data. -/
theorem mseloss_refines_manual_loss_witness :
    MSELoss_mean [3, 5] [1, 2] = manual_loss [3, 5] [1, 2] ∧
      loop_mse (1/2) 2 ⟨1, 2, 0, 0, false, [1, 2], [3, 5]⟩ =
        loop_manual (1/2) 2 ⟨1, 2, 0, 0, false, [1, 2], [3, 5]⟩ :=
  mseloss_refines_manual_loss [3, 5] [1, 2] (1/2) 2
    ⟨1, 2, 0, 0, false, [1, 2], [3, 5]⟩ (by decide) (by decide)

/-- C6: the tiny loop that calls `train_step(x_train_tensor,
y_train_tensor)` once per epoch performs, per epoch, the same computation
as the inline loop variant, and over any number of epochs the two runs
(losses and final state, hence final model parameters) coincide. -/
theorem train_step_loop_refines_inline_loop (lr : ℚ) (n : Nat) (w : World) :
    train_step lr w = epoch_inline lr w ∧
      loop_train_step lr n w = loop_inline lr n w := by
  refine ⟨rfl, ?_⟩
  induction n generalizing w with
  | zero => rfl
  | succ n ih =>
    simp only [loop_train_step, loop_inline]
    rw [show train_step lr w = epoch_inline lr w from rfl, ih]

lemma loop_manual_grads_zero (lr : ℚ) (n : Nat) (w : World) :
    (loop_manual lr (n + 1) w).2.gradA = 0 ∧
      (loop_manual lr (n + 1) w).2.gradB = 0 := by
  induction n generalizing w with
  | zero => exact ⟨rfl, rfl⟩
  | succ n ih => simpa only [loop_manual] using ih (epoch_manual lr w).2

lemma loop_mse_grads_zero (lr : ℚ) (n : Nat) (w : World) :
    (loop_mse lr (n + 1) w).2.gradA = 0 ∧
      (loop_mse lr (n + 1) w).2.gradB = 0 := by
  induction n generalizing w with
  | zero => exact ⟨rfl, rfl⟩
  | succ n ih => simpa only [loop_mse] using ih (epoch_mse lr w).2

lemma loop_inline_grads_zero (lr : ℚ) (n : Nat) (w : World) :
    (loop_inline lr (n + 1) w).2.gradA = 0 ∧
      (loop_inline lr (n + 1) w).2.gradB = 0 := by
  induction n generalizing w with
  | zero => exact ⟨rfl, rfl⟩
  | succ n ih => simpa only [loop_inline] using ih (epoch_inline lr w).2

lemma loop_train_step_grads_zero (lr : ℚ) (n : Nat) (w : World) :
    (loop_train_step lr (n + 1) w).2.gradA = 0 ∧
      (loop_train_step lr (n + 1) w).2.gradB = 0 := by
  induction n generalizing w with
  | zero => exact ⟨rfl, rfl⟩
  | succ n ih => simpa only [loop_train_step] using ih (train_step lr w).2

/-- C8: invariant of every training iteration — at the end of a
`train_step` call (right after `optimizer.zero_grad()`) and at the end of
each iteration of every training loop, the accumulated gradient of every
optimizer-managed parameter is zero, so each epoch's backward pass starts
from zero accumulated gradients. -/
theorem gradients_zero_after_each_iteration (lr : ℚ) (w : World) (n : Nat) :
    (train_step lr w).2.gradA = 0 ∧ (train_step lr w).2.gradB = 0 ∧
      (loop_manual lr (n + 1) w).2.gradA = 0 ∧
      (loop_manual lr (n + 1) w).2.gradB = 0 ∧
      (loop_mse lr (n + 1) w).2.gradA = 0 ∧
      (loop_mse lr (n + 1) w).2.gradB = 0 ∧
      (loop_inline lr (n + 1) w).2.gradA = 0 ∧
      (loop_inline lr (n + 1) w).2.gradB = 0 ∧
      (loop_train_step lr (n + 1) w).2.gradA = 0 ∧
      (loop_train_step lr (n + 1) w).2.gradB = 0 :=
  ⟨rfl, rfl,
   (loop_manual_grads_zero lr n w).1, (loop_manual_grads_zero lr n w).2,
   (loop_mse_grads_zero lr n w).1, (loop_mse_grads_zero lr n w).2,
   (loop_inline_grads_zero lr n w).1, (loop_inline_grads_zero lr n w).2,
   (loop_train_step_grads_zero lr n w).1, (loop_train_step_grads_zero lr n w).2⟩

/-- C9: the scalar `train_step(x, y)` returns is the loss of the parameter
values the model had on entry to the call (the forward pass and the loss
happen before `optimizer.step()` changes the parameters); the `losses`
list receives exactly the per-epoch value, one per epoch, and has length
`n_epochs` after the loop. -/
theorem train_step_loss_uses_entry_params (lr : ℚ) (w : World) (n : Nat) :
    (train_step lr w).1 =
        MSELoss_mean w.ys (w.xs.map (fun x => w.a + w.b * x)) ∧
      (loop_train_step lr (n + 1) w).1 =
        (train_step lr w).1 :: (loop_train_step lr n (train_step lr w).2).1 ∧
      (loop_train_step lr n w).1.length = n :=
  ⟨rfl, rfl, loop_train_step_length lr n w⟩

/-- C10: the training loops are deterministic after initialization — two
runs from identical initial parameter values, fresh (zero) gradients and
identical training data produce identical loss values at every epoch and
identical final parameters, for both the manual-loss loop and the
`nn.MSELoss` loop. -/
theorem training_loops_deterministic (lr : ℚ) (n : Nat) (w1 w2 : World)
    (ha : w1.a = w2.a) (hb : w1.b = w2.b)
    (hga1 : w1.gradA = 0) (hga2 : w2.gradA = 0)
    (hgb1 : w1.gradB = 0) (hgb2 : w2.gradB = 0)
    (hxs : w1.xs = w2.xs) (hys : w1.ys = w2.ys) :
    (loop_manual lr n w1).1 = (loop_manual lr n w2).1 ∧
      (loop_manual lr n w1).2.a = (loop_manual lr n w2).2.a ∧
      (loop_manual lr n w1).2.b = (loop_manual lr n w2).2.b ∧
      (loop_mse lr n w1).1 = (loop_mse lr n w2).1 ∧
      (loop_mse lr n w1).2.a = (loop_mse lr n w2).2.a ∧
      (loop_mse lr n w1).2.b = (loop_mse lr n w2).2.b := by
  have hobs : w1.obs = w2.obs := by
    simp [World.obs, ha, hb, hga1, hga2, hgb1, hgb2, hxs, hys]
  obtain ⟨hl1, ho1⟩ := loop_manual_obs lr n w1 w2 hobs
  obtain ⟨hl2, ho2⟩ := loop_mse_obs lr n w1 w2 hobs
  exact ⟨hl1, congrArg (fun p => p.1) ho1, congrArg (fun p => p.2.1) ho1,
    hl2, congrArg (fun p => p.1) ho2, congrArg (fun p => p.2.1) ho2⟩

/-- Witness for C10: two initial states that agree on parameters, zero
gradients and data but differ in the training-mode flag. -/
theorem training_loops_deterministic_witness :
    (loop_manual (1/2) 2 ⟨1, 2, 0, 0, false, [1], [3]⟩).1 =
        (loop_manual (1/2) 2 ⟨1, 2, 0, 0, true, [1], [3]⟩).1 ∧
      (loop_manual (1/2) 2 ⟨1, 2, 0, 0, false, [1], [3]⟩).2.a =
        (loop_manual (1/2) 2 ⟨1, 2, 0, 0, true, [1], [3]⟩).2.a ∧
      (loop_manual (1/2) 2 ⟨1, 2, 0, 0, false, [1], [3]⟩).2.b =
        (loop_manual (1/2) 2 ⟨1, 2, 0, 0, true, [1], [3]⟩).2.b ∧
      (loop_mse (1/2) 2 ⟨1, 2, 0, 0, false, [1], [3]⟩).1 =
        (loop_mse (1/2) 2 ⟨1, 2, 0, 0, true, [1], [3]⟩).1 ∧
      (loop_mse (1/2) 2 ⟨1, 2, 0, 0, false, [1], [3]⟩).2.a =
        (loop_mse (1/2) 2 ⟨1, 2, 0, 0, true, [1], [3]⟩).2.a ∧
      (loop_mse (1/2) 2 ⟨1, 2, 0, 0, false, [1], [3]⟩).2.b =
        (loop_mse (1/2) 2 ⟨1, 2, 0, 0, true, [1], [3]⟩).2.b :=
  training_loops_deterministic (1/2) 2 ⟨1, 2, 0, 0, false, [1], [3]⟩
    ⟨1, 2, 0, 0, true, [1], [3]⟩ rfl rfl rfl rfl rfl rfl rfl rfl
